import Mathlib

/-!
Shallow embedding of `src/consensus/ethash/algorithm.go` (package `ethash`,
engine type `Hmhash`): the stand-in hash primitive (`hashimoto` and its
light/full entry points), seed derivation (`seedHash`), the `Mode`
enumeration, the `Config` and `Hmhash` records, the constructors
(`New`, `NewFaker`, `NewFakeFailer`, `NewFakeDelayer`, `NewFullFaker`,
`NewShared`), thread control (`Threads`/`SetThreads`), hashrate query
(`Hashrate`) and shutdown (`Close`/`StopRemoteSealer`).

Modelling conventions: Go byte slices are `List Nat` (entries below 256;
byte XOR is `Nat` XOR, which never leaves that range), Go `int` is `Int`,
Go `uint64` is `Nat`, `float64` meter readings are `Rat`, Go `nil`
pointers/interfaces are `Option.none`, and a Go run-time panic (nil
dereference, index out of range, close of a closed channel) is the
`Except.error` side of an explicit `GoPanic` value.
-/

namespace Ethash

/-- Run-time panics the embedded Go code can raise. -/
inductive GoPanic where
  | nilPointerDeref
  | nilMeterCall
  | closeOfClosedChannel
  | indexOutOfRange
deriving DecidableEq

/-- Blocks per epoch (`epochLength = 30000`). -/
def epochLength : Nat := 30000

/-- `hashimoto(hash, nonceHash)` from the source: allocates a result of
`len(hash)` bytes and fills position `i` with `hash[i] ^ nonceHash[i]`
for `i` from `0` to `len(hash)-1`. Indexing `nonceHash[i]` with
`i >= len(nonceHash)` panics in Go, modelled as `none`; the traversal
pairs the two slices position by position, so the panic fires exactly
when `nonceHash` is exhausted before `hash`. -/
def hashimoto : List Nat → List Nat → Option (List Nat)
  | [], _ => some []
  | _ :: _, [] => none
  | h :: hs, n :: ns => (hashimoto hs ns).map fun r => (h ^^^ n) :: r

/-- `hashimotoLight` delegates to `hashimoto` unchanged. -/
def hashimotoLight (hash nonce : List Nat) : Option (List Nat) :=
  hashimoto hash nonce

/-- `hashimotoFull` delegates to `hashimoto` unchanged. -/
def hashimotoFull (hash nonce : List Nat) : Option (List Nat) :=
  hashimoto hash nonce

/-- `seedHash(block)` from the source: a 32-byte seed starting as all
zeroes; if `block < epochLength` it is returned untouched, otherwise the
keccak-256 hasher is applied to the seed in place `block / epochLength`
times (output of step i feeds step i+1). The keccak-256 primitive lives
in the external `golang.org/x/crypto/sha3` library, so it is taken here
as an opaque function parameter `keccak256`; `makeHasher` resets the
hashing context before every operation, making each call a pure function
of its input, which the function parameter captures. -/
def seedHash (keccak256 : List Nat → List Nat) (block : Nat) : List Nat :=
  let seed := List.replicate 32 0
  if block < epochLength then seed
  else keccak256^[block / epochLength] seed

/-- `Mode` from the source `const` block: `ModeNormal`, `ModeShared`,
`ModeTest`, `ModeFake`, `ModeFullFake` (iota values 0..4). -/
inductive Mode where
  | ModeNormal
  | ModeShared
  | ModeTest
  | ModeFake
  | ModeFullFake
deriving DecidableEq, Fintype

/-- The iota value each `Mode` constant carries in the Go `const` block. -/
def Mode.toUint : Mode → Nat
  | .ModeNormal => 0
  | .ModeShared => 1
  | .ModeTest => 2
  | .ModeFake => 3
  | .ModeFullFake => 4

/-- `Config` from the source: `PowMode`, `NotifyFull` and an opaque
logger (`none` = Go `nil`). -/
structure Config where
  PowMode : Mode
  NotifyFull : Bool
  Log : Option Unit
deriving DecidableEq

/-- Modelled from the spec: the `remoteSealer` internals
(`startRemoteSealer`, `fetchRateCh`, `requestExit`, `exitCh`) are not in
the excerpt. The handle records the notify endpoint list and the
verification-skip flag it was started with, whether its `requestExit`
channel has been closed, whether its `exitCh` has been closed (the
sealer has exited), and the aggregate remote hashrate it would report to
a `fetchRateCh` request while running. -/
structure RemoteSealerH where
  notify : List String
  noverify : Bool
  requestExitClosed : Bool
  exited : Bool
  remoteRate : Rat
deriving DecidableEq

/-- The `Hmhash` struct. `rand` and the remote handle are pointers
(`none` = nil); the hashrate meter interface is `none` when nil,
otherwise it carries its current `Rate1()` reading; `shared` is true
exactly when the `shared` field points at the process singleton
`sharedHmhash`; `closeDone` records whether `closeOnce` has been
consumed. The `update` channel's non-blocking ping in `SetThreads`
touches no field modelled here (a dropped ping changes no state), and
the mutex serialises access, so single-threaded state passing is
faithful. -/
structure Hmhash where
  config : Config
  rand : Option Unit
  threads : Int
  updateAlloc : Bool
  hashrate : Option Rat
  remote : Option RemoteSealerH
  shared : Bool
  fakeFail : Nat
  fakeDelay : Nat
  closeDone : Bool
deriving DecidableEq

/-- `log.Root()`: the default process-wide logger (a non-nil value). -/
def logRoot : Option Unit := some ()

/-- Modelled from the spec: `startRemoteSealer(hmhash, notify, noverify)`
is not in the excerpt; it starts the background coordinator and returns
a fresh handle holding the notify endpoints and the skip flag, with both
exit channels still open. A fresh forced meter reads 0. -/
def startRemoteSealer (notify : List String) (noverify : Bool) : RemoteSealerH :=
  { notify := notify
    noverify := noverify
    requestExitClosed := false
    exited := false
    remoteRate := 0 }

/-- `New(config, notify, noverify)`: defaults the logger when absent,
allocates the update channel and a forced meter, binds the shared
delegate exactly when `config.PowMode == ModeShared`, and always starts
a remote sealer with the given notify list and noverify flag. -/
def New (config : Config) (notify : List String) (noverify : Bool) : Hmhash :=
  let config := if config.Log = none then { config with Log := logRoot } else config
  { config := config
    rand := none
    threads := 0
    updateAlloc := true
    hashrate := some 0
    remote := some (startRemoteSealer notify noverify)
    shared := config.PowMode = Mode.ModeShared
    fakeFail := 0
    fakeDelay := 0
    closeDone := false }

/-- `NewTester`: `New` with `ModeTest`. -/
def NewTester (notify : List String) (noverify : Bool) : Hmhash :=
  New { PowMode := Mode.ModeTest, NotifyFull := false, Log := none } notify noverify

/-- `NewFaker()`: only `config` is populated; every other field keeps
its Go zero value (nil pointers, nil meter, 0 counts). -/
def NewFaker : Hmhash :=
  { config := { PowMode := Mode.ModeFake, NotifyFull := false, Log := logRoot }
    rand := none
    threads := 0
    updateAlloc := false
    hashrate := none
    remote := none
    shared := false
    fakeFail := 0
    fakeDelay := 0
    closeDone := false }

/-- `NewFakeFailer(fail)`: `NewFaker`'s zero struct plus `fakeFail`. -/
def NewFakeFailer (fail : Nat) : Hmhash :=
  { NewFaker with fakeFail := fail }

/-- `NewFakeDelayer(delay)`: `NewFaker`'s zero struct plus `fakeDelay`. -/
def NewFakeDelayer (delay : Nat) : Hmhash :=
  { NewFaker with fakeDelay := delay }

/-- `NewFullFaker()`: zero struct with `ModeFullFake`. -/
def NewFullFaker : Hmhash :=
  { NewFaker with config := { PowMode := Mode.ModeFullFake, NotifyFull := false, Log := logRoot } }

/-- `NewShared()`: `&Hmhash{shared: sharedHmhash}` — only the shared
delegate is set; `config` keeps its zero value (`PowMode` 0 =
`ModeNormal`, nil logger), and `remote`, `rand` and the meter are nil. -/
def NewShared : Hmhash :=
  { config := { PowMode := Mode.ModeNormal, NotifyFull := false, Log := none }
    rand := none
    threads := 0
    updateAlloc := false
    hashrate := none
    remote := none
    shared := true
    fakeFail := 0
    fakeDelay := 0
    closeDone := false }

/-- `sharedHmhash`, built in the package's `init`:
`New(Config{PowMode: ModeNormal}, nil, false)`. -/
def sharedHmhash : Hmhash :=
  New { PowMode := Mode.ModeNormal, NotifyFull := false, Log := none } [] false

/-- `Threads()`: returns the receiver's own `threads` field under lock —
it does not consult the shared delegate. -/
def Hmhash.Threads (h : Hmhash) : Int := h.threads

/-- A delegating engine together with the process singleton it points
at. The singleton is `sharedHmhash`, whose own `shared` field is nil
(`sharedHmhash_not_shared` below), so the forwarded `SetThreads` call on
it takes the non-shared branch: the one-step unrolling in `SetThreads`
is exact. -/
structure SharedWorld where
  eng : Hmhash
  sing : Hmhash
deriving DecidableEq

/-- `SetThreads(threads)` on the engine of the world: if the shared
delegate is set the update is forwarded to the singleton (whose own
non-shared branch stores it); otherwise the engine's own `threads` field
is updated. The subsequent non-blocking ping on the `update` channel
mutates no modelled state. -/
def SetThreads (w : SharedWorld) (n : Int) : SharedWorld :=
  if w.eng.shared then { w with sing := { w.sing with threads := n } }
  else { w with eng := { w.eng with threads := n } }

/-- `Rate1()` on the meter interface: a nil interface call panics. -/
def Rate1 : Option Rat → Except GoPanic Rat
  | none => .error .nilMeterCall
  | some q => .ok q

/-- `Hashrate()` from the source: outside `ModeNormal`/`ModeTest` it
returns the local meter reading. Otherwise it evaluates
`hmhash.remote.fetchRateCh` — a nil-pointer dereference when no remote
sealer was started — and enters the select: if the sealer has exited
(`exitCh` closed, and an exited sealer no longer serves `fetchRateCh`)
it returns the local reading alone, else the running sealer receives the
request and replies with its aggregate (modelled from the spec: the
sealer answers a rate-fetch request while running), which is added to
the local reading. -/
def Hashrate (h : Hmhash) : Except GoPanic Rat :=
  if h.config.PowMode ≠ Mode.ModeNormal ∧ h.config.PowMode ≠ Mode.ModeTest then
    Rate1 h.hashrate
  else
    match h.remote with
    | none => .error .nilPointerDeref
    | some r =>
      if r.exited then Rate1 h.hashrate
      else
        match Rate1 h.hashrate with
        | .error e => .error e
        | .ok localRate => .ok (localRate + r.remoteRate)

/-- `close(requestExit)`: closing an already-closed channel panics. -/
def closeRequestExit (r : RemoteSealerH) : Except GoPanic RemoteSealerH :=
  if r.requestExitClosed then .error .closeOfClosedChannel
  else .ok { r with requestExitClosed := true }

/-- `StopRemoteSealer()`: the body runs under `closeOnce.Do`, so once
`closeDone` is set every later call returns immediately. Inside the
body: a nil remote handle short-circuits; otherwise `requestExit` is
closed and the call blocks on `<-exitCh` until the sealer confirms exit
(modelled from the spec: the cooperative sealer exits promptly, leaving
`exited := true`). The return value is always the nil error. -/
def StopRemoteSealer (h : Hmhash) : Except GoPanic (Hmhash × Option Unit) :=
  if h.closeDone then .ok (h, none)
  else
    match h.remote with
    | none => .ok ({ h with closeDone := true }, none)
    | some r =>
      match closeRequestExit r with
      | .error e => .error e
      | .ok rc => .ok ({ h with closeDone := true, remote := some { rc with exited := true } }, none)

/-- `Close()` delegates to `StopRemoteSealer()`. -/
def Close (h : Hmhash) : Except GoPanic (Hmhash × Option Unit) :=
  StopRemoteSealer h

/-- Repeated invocation of `StopRemoteSealer`, threading the state. -/
def stopN : Nat → Hmhash → Except GoPanic (Hmhash × Option Unit)
  | 0, h => .ok (h, none)
  | n + 1, h =>
    match StopRemoteSealer h with
    | .error e => .error e
    | .ok p => stopN n p.1

/-- Well-formedness every constructed engine enjoys: if the teardown has
not yet run, the remote handle's `requestExit` channel is still open
(only the once-guarded teardown body closes it). -/
def closeWF (h : Hmhash) : Bool :=
  match h.remote with
  | none => true
  | some r => !r.requestExitClosed || h.closeDone

/-! Theorems settling the claims. -/

/-- C3: for every pair of byte slices `hash` and `nonce`,
`hashimotoLight(hash, nonce)` equals `hashimotoFull(hash, nonce)` byte
for byte — both delegate to the same combining function `hashimoto`. -/
theorem hashimotoLight_eq_hashimotoFull (hash nonce : List Nat) :
    hashimotoLight hash nonce = hashimotoFull hash nonce := rfl

/-- C8: whenever the nonce digest is at least as long as the header
digest, `hashimoto` succeeds with a result of the header digest's
length whose byte at every index `i < len(hash)` is
`hash[i] XOR nonce[i]`. -/
theorem hashimoto_xor_pointwise (hash nonce : List Nat)
    (hlen : hash.length ≤ nonce.length) :
    ∃ r, hashimoto hash nonce = some r ∧ r.length = hash.length ∧
      ∀ i, i < hash.length → r.getD i 0 = hash.getD i 0 ^^^ nonce.getD i 0 := by
  induction hash generalizing nonce with
  | nil =>
    exact ⟨[], rfl, rfl, fun i hi => absurd hi (Nat.not_lt_zero i)⟩
  | cons h hs ih =>
    cases nonce with
    | nil => simp at hlen
    | cons n ns =>
      obtain ⟨r, hr, hrl, hrp⟩ := ih ns (Nat.le_of_succ_le_succ hlen)
      refine ⟨(h ^^^ n) :: r, ?_, by simp [hrl], ?_⟩
      · simp [hashimoto, hr]
      · intro i hi
        cases i with
        | zero => rfl
        | succ j =>
          simpa using hrp j (Nat.lt_of_succ_lt_succ hi)

/-- C8 witness: at header digest `[1, 2]` and nonce digest `[3, 4, 5]`
the theorem yields the XOR combination `[2, 6]`. -/
theorem hashimoto_xor_pointwise_witness :
    ∃ r, hashimoto [1, 2] [3, 4, 5] = some r ∧ r.length = [1, 2].length ∧
      ∀ i, i < [1, 2].length →
        r.getD i 0 = [1, 2].getD i 0 ^^^ [3, 4, 5].getD i 0 :=
  hashimoto_xor_pointwise [1, 2] [3, 4, 5] (by decide)

/-- C10: `hashimoto` hits the out-of-range branch (a Go panic) exactly
when the nonce digest is strictly shorter than the header digest; under
the precondition `len(nonce) ≥ len(hash)` that branch is unreachable
and the function is total. `hashimotoLight` and `hashimotoFull` behave
identically, being the same function. -/
theorem hashimoto_oob_iff (hash nonce : List Nat) :
    (hashimoto hash nonce = none ↔ nonce.length < hash.length) ∧
    hashimotoLight hash nonce = hashimoto hash nonce ∧
    hashimotoFull hash nonce = hashimoto hash nonce := by
  refine ⟨?_, rfl, rfl⟩
  induction hash generalizing nonce with
  | nil => simp [hashimoto]
  | cons h hs ih =>
    cases nonce with
    | nil => simp [hashimoto]
    | cons n ns =>
      simp [hashimoto, Option.map_eq_none', ih ns, Nat.succ_lt_succ_iff]

/-- C9 counterexample: the `Mode` enumeration declared in the source has
exactly five constants, not seven — there is no `ModeFakeFail` and no
`ModeFakeDelay` variant (fake-fail and fake-delay are `Hmhash` fields
combined with `ModeFake`, not modes). -/
theorem mode_card_is_five_not_seven :
    Fintype.card Mode = 5 ∧ ¬ Fintype.card Mode = 7 := by
  constructor <;> decide

/-- C9 amended: `Mode` is an enumeration with exactly the five variants
`ModeNormal`, `ModeShared`, `ModeTest`, `ModeFake`, `ModeFullFake`,
carrying the iota values 0..4. -/
theorem mode_five_variants :
    Fintype.card Mode = 5 ∧
    (∀ m : Mode, m = Mode.ModeNormal ∨ m = Mode.ModeShared ∨ m = Mode.ModeTest ∨
      m = Mode.ModeFake ∨ m = Mode.ModeFullFake) ∧
    Mode.toUint Mode.ModeNormal = 0 ∧ Mode.toUint Mode.ModeShared = 1 ∧
    Mode.toUint Mode.ModeTest = 2 ∧ Mode.toUint Mode.ModeFake = 3 ∧
    Mode.toUint Mode.ModeFullFake = 4 := by
  refine ⟨by decide, fun m => by cases m <;> simp, rfl, rfl, rfl, rfl, rfl⟩

/-- C2: `NewShared` leaves `config` zero-valued, so its `PowMode` is
`ModeNormal` and its remote handle is nil; `Hashrate()` on such an
engine therefore takes the Normal/Test branch and dereferences the nil
remote handle — a reachable panic — instead of delegating to the shared
singleton. -/
theorem newShared_hashrate_nil_deref :
    NewShared.config.PowMode = Mode.ModeNormal ∧
    NewShared.config.NotifyFull = false ∧
    NewShared.config.Log = none ∧
    NewShared.remote = none ∧
    NewShared.shared = true ∧
    Hashrate NewShared = .error GoPanic.nilPointerDeref := by
  refine ⟨rfl, rfl, rfl, rfl, rfl, ?_⟩
  simp [Hashrate, NewShared]

/-- Closed form of `seedHash`: the epoch-indexed iterate of the hash,
shared by the parts of the seed-derivation claim. -/
theorem seedHash_eq_iterate (keccak256 : List Nat → List Nat) (b : Nat) :
    seedHash keccak256 b = keccak256^[b / 30000] (List.replicate 32 0) := by
  unfold seedHash epochLength
  split
  · rename_i hb
    rw [Nat.div_eq_of_lt hb, Function.iterate_zero_apply]
  · rfl

/-- C4: `seedHash(b)` is 32 zero bytes for `b < 30000`; block numbers in
the same epoch (`b / 30000 = bq / 30000`) get the same seed; and in
general the seed is the hash applied to its own output, starting from 32
zero bytes, exactly `b / 30000` times — for every pure hash function
standing in for keccak-256. -/
theorem seedHash_epoch_iterated (keccak256 : List Nat → List Nat) (b bq : Nat) :
    (b < 30000 → seedHash keccak256 b = List.replicate 32 0) ∧
    (b / 30000 = bq / 30000 → seedHash keccak256 b = seedHash keccak256 bq) ∧
    seedHash keccak256 b = keccak256^[b / 30000] (List.replicate 32 0) := by
  refine ⟨fun hb => ?_, fun hq => ?_, seedHash_eq_iterate keccak256 b⟩
  · rw [seedHash_eq_iterate, Nat.div_eq_of_lt hb, Function.iterate_zero_apply]
  · rw [seedHash_eq_iterate, seedHash_eq_iterate, hq]

/-- C1 counterexample: on the delegating engine built by `NewShared`,
`SetThreads(2)` stores 2 in the singleton, yet the delegating engine's
own `Threads()` still returns 0, not 2 — the read is not forwarded. -/
theorem setThreads_shared_own_read_cex :
    Hmhash.Threads (SetThreads ⟨NewShared, sharedHmhash⟩ 2).sing = 2 ∧
    Hmhash.Threads (SetThreads ⟨NewShared, sharedHmhash⟩ 2).eng = 0 ∧
    ¬ Hmhash.Threads (SetThreads ⟨NewShared, sharedHmhash⟩ 2).eng = 2 := by
  refine ⟨rfl, rfl, by decide⟩

/-- C1 amended: on an engine without the shared delegate, `SetThreads(n)`
then `Threads()` returns `n`; on an engine with the shared delegate set,
`SetThreads(n)` forwards the update to the process singleton, and `n` is
afterwards observable through the singleton's `Threads()`, while the
delegating engine's own `Threads()` still returns its local (unchanged)
thread count. -/
theorem setThreads_then_threads (e s : Hmhash) (n : Int) :
    (e.shared = false →
      Hmhash.Threads (SetThreads ⟨e, s⟩ n).eng = n ∧
      (SetThreads ⟨e, s⟩ n).sing = s) ∧
    (e.shared = true →
      Hmhash.Threads (SetThreads ⟨e, s⟩ n).sing = n ∧
      Hmhash.Threads (SetThreads ⟨e, s⟩ n).eng = Hmhash.Threads e) := by
  constructor <;> intro hs <;> simp [SetThreads, Hmhash.Threads, hs]

/-- The process singleton `sharedHmhash` is built by `New` with
`ModeNormal`, so its own shared-delegate field is nil: the one-step
delegation unrolling in `SetThreads` is exact. -/
theorem sharedHmhash_not_shared : sharedHmhash.shared = false := rfl

/-- C7: `New` (for every config, notify list — empty included — and
noverify flag) returns an engine whose remote sealer has been started
and received exactly that notify list and that flag, whereas `NewFaker`,
`NewFakeFailer`, `NewFakeDelayer` and `NewFullFaker` return engines with
no remote sealer and no randomness source — no background coordination
is started for them. -/
theorem new_starts_remote_fakers_do_not (config : Config)
    (notify : List String) (noverify : Bool) (fail delay : Nat) :
    ((New config notify noverify).remote = some (startRemoteSealer notify noverify) ∧
      (startRemoteSealer notify noverify).notify = notify ∧
      (startRemoteSealer notify noverify).noverify = noverify) ∧
    (NewFaker.remote = none ∧ NewFaker.rand = none) ∧
    ((NewFakeFailer fail).remote = none ∧ (NewFakeFailer fail).rand = none) ∧
    ((NewFakeDelayer delay).remote = none ∧ (NewFakeDelayer delay).rand = none) ∧
    (NewFullFaker.remote = none ∧ NewFullFaker.rand = none) :=
  ⟨⟨rfl, rfl, rfl⟩, ⟨rfl, rfl⟩, ⟨rfl, rfl⟩, ⟨rfl, rfl⟩, ⟨rfl, rfl⟩⟩

/-- C5: on an engine whose mode is neither Normal nor Test, `Hashrate()`
returns exactly the local meter's reading; in Normal/Test mode with the
remote sealer exited, it returns the local reading alone without
blocking; otherwise (sealer still running) it returns the local reading
plus the sealer's remote aggregate. -/
theorem hashrate_branches (h : Hmhash) (q : Rat) (hm : h.hashrate = some q) :
    (h.config.PowMode ≠ Mode.ModeNormal ∧ h.config.PowMode ≠ Mode.ModeTest →
      Hashrate h = .ok q) ∧
    (∀ r, h.remote = some r →
      (h.config.PowMode = Mode.ModeNormal ∨ h.config.PowMode = Mode.ModeTest) →
      (r.exited = true → Hashrate h = .ok q) ∧
      (r.exited = false → Hashrate h = .ok (q + r.remoteRate))) := by
  constructor
  · intro hmode
    simp [Hashrate, hmode, Rate1, hm]
  · intro r hr hmode
    have hcond : ¬(h.config.PowMode ≠ Mode.ModeNormal ∧ h.config.PowMode ≠ Mode.ModeTest) := by
      rcases hmode with h1 | h1 <;> simp [h1]
    constructor <;> intro hex <;> simp [Hashrate, hcond, hr, hex, Rate1, hm]

/-- A fake-mode engine carrying a meter that reads 3 (a faker whose
mining loop has metered some work). -/
def fakerMetered : Hmhash :=
  { NewFaker with hashrate := some 3 }

/-- A Normal-mode engine whose remote sealer has exited. -/
def normalStopped : Hmhash :=
  { New { PowMode := Mode.ModeNormal, NotifyFull := false, Log := none } [] false with
    remote := some { startRemoteSealer [] false with exited := true } }

/-- A Normal-mode engine whose running remote sealer aggregates 5. -/
def normalRunning : Hmhash :=
  { New { PowMode := Mode.ModeNormal, NotifyFull := false, Log := none } [] false with
    remote := some { startRemoteSealer [] false with remoteRate := 5 } }

/-- C5 witness: applying the theorem at concrete engines exercises all
three branches — a fake-mode engine returns its meter reading 3, a
Normal engine with an exited sealer returns its local 0, and a Normal
engine with a running sealer returns local 0 plus remote 5. -/
theorem hashrate_branches_witness :
    Hashrate fakerMetered = .ok 3 ∧
    Hashrate normalStopped = .ok 0 ∧
    Hashrate normalRunning = .ok (0 + 5) :=
  ⟨(hashrate_branches fakerMetered 3 rfl).1 (by decide),
   ((hashrate_branches normalStopped 0 rfl).2
      { startRemoteSealer [] false with exited := true } rfl (Or.inl rfl)).1 rfl,
   ((hashrate_branches normalRunning 0 rfl).2
      { startRemoteSealer [] false with remoteRate := 5 } rfl (Or.inl rfl)).2 rfl⟩

/-- An engine whose once-guard has been consumed returns immediately
with the nil error and an unchanged state. -/
theorem stopRemoteSealer_of_closeDone (h : Hmhash) (hd : h.closeDone = true) :
    StopRemoteSealer h = .ok (h, none) := by
  simp [StopRemoteSealer, hd]

/-- Repeating `StopRemoteSealer` from a fixed point stays put. -/
theorem stopN_of_fixed (n : Nat) (h : Hmhash)
    (hfix : StopRemoteSealer h = .ok (h, none)) :
    stopN n h = .ok (h, none) := by
  induction n with
  | zero => rfl
  | succ m ih => simp [stopN, hfix, ih]

/-- C6: on every well-formed engine (`closeWF`: the exit-request channel
of an engine whose teardown has not run is still open, as every
constructor guarantees), `Close()`/`StopRemoteSealer()` succeeds with
the nil error and reaches a state from which any number of further calls
returns the nil error and changes nothing — the teardown (closing the
exit-request channel and waiting for exit confirmation) executes at most
once; on an engine whose remote handle is nil, the call is a no-op apart
from consuming the once-guard; and `Close` is exactly
`StopRemoteSealer`. -/
theorem stopRemoteSealer_idempotent_nil_error (h : Hmhash) (hwf : closeWF h = true) :
    (∃ h2, StopRemoteSealer h = .ok (h2, none) ∧
      ∀ n, stopN n h2 = .ok (h2, none)) ∧
    (h.remote = none → StopRemoteSealer h = .ok ({ h with closeDone := true }, none)) ∧
    Close h = StopRemoteSealer h := by
  refine ⟨?_, ?_, rfl⟩
  · by_cases hd : h.closeDone = true
    · exact ⟨h, stopRemoteSealer_of_closeDone h hd,
        fun n => stopN_of_fixed n h (stopRemoteSealer_of_closeDone h hd)⟩
    · have hd' : h.closeDone = false := by
        cases hcd : h.closeDone
        · rfl
        · exact absurd hcd hd
      cases hr : h.remote with
      | none =>
        refine ⟨{ h with closeDone := true }, ?_, fun n => stopN_of_fixed n _ ?_⟩
        · simp [StopRemoteSealer, hd', hr]
        · exact stopRemoteSealer_of_closeDone _ rfl
      | some r =>
        have hopen : r.requestExitClosed = false := by
          unfold closeWF at hwf
          rw [hr] at hwf
          rw [hd'] at hwf
          simpa using hwf
        refine ⟨{ h with closeDone := true, remote := some { r with requestExitClosed := true, exited := true } }, ?_, fun n => stopN_of_fixed n _ ?_⟩
        · simp [StopRemoteSealer, hd', hr, closeRequestExit, hopen]
        · exact stopRemoteSealer_of_closeDone _ rfl
  · intro hr
    by_cases hd : h.closeDone = true
    · have : ({ h with closeDone := true } : Hmhash) = h := by
        cases h
        simp_all
      rw [this]
      exact stopRemoteSealer_of_closeDone h hd
    · have hd' : h.closeDone = false := by
        cases hcd : h.closeDone
        · rfl
        · exact absurd hcd hd
      simp [StopRemoteSealer, hd', hr]

/-- C6 witness: applying the theorem to the process singleton (built by
`New`, well-formed by construction) — its shutdown returns the nil
error, and repeated calls stay put. -/
theorem stopRemoteSealer_idempotent_nil_error_witness :
    closeWF sharedHmhash = true ∧
    ((∃ h2, StopRemoteSealer sharedHmhash = .ok (h2, none) ∧
        ∀ n, stopN n h2 = .ok (h2, none)) ∧
      (sharedHmhash.remote = none →
        StopRemoteSealer sharedHmhash = .ok ({ sharedHmhash with closeDone := true }, none)) ∧
      Close sharedHmhash = StopRemoteSealer sharedHmhash) :=
  ⟨rfl, stopRemoteSealer_idempotent_nil_error sharedHmhash rfl⟩

end Ethash
